import Mathlib

/-!
Verification of the YAML-to-docx filler core (`filler.py` / `documentHandler.py`).

The embedded operations are:
* `transform_data` — the recursive tree normalizer (identical in both source files);
* `get_mixed_types_str_keys` — label extraction from a mixed outline list;
* `get_mixed_types_dict_values` — grouped-value extraction from a mixed outline list.

Python values are modelled by `Value`: strings and other scalars, lists, and
insertion-ordered dicts represented as association lists with pairwise-distinct keys.
Python requires dict keys to be hashable, so keys are restricted to the scalar type
(`Scalar`); lists and dicts never occur as keys.  Python's numeric/bool equality
conflation (`1 == True`) is not modelled; no claim depends on it.  Exceptions
(`IndexError` from `list(d.keys())[0]` on an empty dict, `TypeError` from iterating a
non-iterable) are modelled with `Except`.  `print` diagnostics are not part of the
returned value; where a claim mentions a diagnostic, the source emits it on exactly
the branch the theorem isolates.
-/

set_option autoImplicit false

/-- A hashable Python scalar: the values that can appear as dict keys, and the
non-container leaves of a YAML tree (strings, ints, bools, `None`). -/
inductive Scalar where
  | str : String → Scalar
  | int : Int → Scalar
  | bool : Bool → Scalar
  | none : Scalar
deriving DecidableEq, Repr

/-- A Python value as it occurs in the YAML trees this program manipulates. -/
inductive Value where
  | scalar : Scalar → Value
  | list : List Value → Value
  | dict : List (Scalar × Value) → Value
deriving Repr

mutual
def Value.decEq : (a b : Value) → Decidable (a = b)
  | .scalar x, .scalar y =>
      if h : x = y then isTrue (by rw [h])
      else isFalse (fun hh => h (Value.scalar.inj hh))
  | .scalar _, .list _ => isFalse (fun h => Value.noConfusion h)
  | .scalar _, .dict _ => isFalse (fun h => Value.noConfusion h)
  | .list _, .scalar _ => isFalse (fun h => Value.noConfusion h)
  | .list xs, .list ys =>
      match Value.decEqList xs ys with
      | isTrue h => isTrue (by rw [h])
      | isFalse h => isFalse (fun hh => h (Value.list.inj hh))
  | .list _, .dict _ => isFalse (fun h => Value.noConfusion h)
  | .dict _, .scalar _ => isFalse (fun h => Value.noConfusion h)
  | .dict _, .list _ => isFalse (fun h => Value.noConfusion h)
  | .dict xs, .dict ys =>
      match Value.decEqPairs xs ys with
      | isTrue h => isTrue (by rw [h])
      | isFalse h => isFalse (fun hh => h (Value.dict.inj hh))

def Value.decEqList : (xs ys : List Value) → Decidable (xs = ys)
  | [], [] => isTrue rfl
  | [], _ :: _ => isFalse (fun h => List.noConfusion h)
  | _ :: _, [] => isFalse (fun h => List.noConfusion h)
  | x :: xs, y :: ys =>
      match Value.decEq x y, Value.decEqList xs ys with
      | isTrue h1, isTrue h2 => isTrue (by rw [h1, h2])
      | isFalse h1, _ => isFalse (fun h => h1 (List.cons.injEq .. ▸ h).1)
      | _, isFalse h2 => isFalse (fun h => h2 (List.cons.injEq .. ▸ h).2)

def Value.decEqPairs : (xs ys : List (Scalar × Value)) → Decidable (xs = ys)
  | [], [] => isTrue rfl
  | [], _ :: _ => isFalse (fun h => List.noConfusion h)
  | _ :: _, [] => isFalse (fun h => List.noConfusion h)
  | (k1, v1) :: xs, (k2, v2) :: ys =>
      if h1 : k1 = k2 then
        match Value.decEq v1 v2, Value.decEqPairs xs ys with
        | isTrue h2, isTrue h3 => isTrue (by rw [h1, h2, h3])
        | isFalse h2, _ =>
            isFalse (fun h => h2 (congrArg Prod.snd (List.cons.injEq .. ▸ h).1))
        | _, isFalse h3 => isFalse (fun h => h3 (List.cons.injEq .. ▸ h).2)
      else isFalse (fun h => h1 (congrArg Prod.fst (List.cons.injEq .. ▸ h).1))
end

instance : DecidableEq Value := Value.decEq

deriving instance DecidableEq for Except

/-- The Python exceptions the modelled code can raise: `IndexError` from
`list(d.keys())[0]` / `list(d.values())[0]` on an empty dict, and `TypeError`
from iterating a non-iterable. -/
inductive PyErr where
  | indexError
  | typeError
deriving DecidableEq, Repr

/-- Python `s.rstrip("\n")`: drop the trailing run of newline characters
(and nothing else).  `List.rdropWhile p l` is `(l.reverse.dropWhile p).reverse`. -/
def rstripNewlines (s : String) : String :=
  String.mk (s.data.rdropWhile (· = '\n'))

/-- Python `str(x)` for the hashable scalars that can reach it in this program. -/
def pyStr : Scalar → String
  | .str s => s
  | .int n => toString n
  | .bool true => "True"
  | .bool false => "False"
  | .none => "None"

/-- Python iteration `for item in x`: lists yield their elements, dicts yield their
keys, strings yield their single-character substrings; other scalars are not
iterable (`TypeError`). -/
def pyIter : Value → Option (List Value)
  | .list xs => some xs
  | .dict kvs => some (kvs.map (fun p => Value.scalar p.1))
  | .scalar (.str s) => some (s.data.map (fun c => Value.scalar (.str (String.mk [c]))))
  | .scalar _ => Option.none

/-- Python dict insertion `d[k] = v`: overwrite in place if the key is present
(keeping its position and original key object), else append at the end. -/
def pyDictInsert (d : List (Scalar × Value)) (k : Scalar) (v : Value) :
    List (Scalar × Value) :=
  if k ∈ d.map Prod.fst then
    d.map (fun p => if p.1 = k then (p.1, v) else p)
  else
    d ++ [(k, v)]

/-- `transform_data` restricted to scalars (dict keys are scalars, so the dict
branch of the source applies `transform_data` to keys through this restriction):
a string is stripped of trailing newlines, any other scalar is returned unchanged
(the source prints an advisory notice on that branch). -/
def transformScalar : Scalar → Scalar
  | .str s => .str (rstripNewlines s)
  | s => s

mutual
/-- `transform_data` (filler.py lines 159-185, documentHandler.py lines 152-177):
recursively rebuild a dict via a comprehension (insertion order, later colliding
keys overwrite), map over a list, strip trailing newlines from a string, and return
anything else unchanged. -/
def transform_data : Value → Value
  | .scalar s => .scalar (transformScalar s)
  | .list xs => .list (transformList xs)
  | .dict kvs => .dict (transformPairs kvs [])

/-- The list comprehension `[transform_data(element) for element in data]`. -/
def transformList : List Value → List Value
  | [] => []
  | x :: xs => transform_data x :: transformList xs

/-- The dict comprehension
`{transform_data(key): transform_data(value) for key, value in data.items()}`:
entries are transformed and inserted left to right into an initially empty dict. -/
def transformPairs : List (Scalar × Value) → List (Scalar × Value) → List (Scalar × Value)
  | [], acc => acc
  | (k, v) :: rest, acc =>
      transformPairs rest (pyDictInsert acc (transformScalar k) (transform_data v))
end

/-- Left-to-right effectful map in the `Except` monad: the loop shape shared by both
decomposer functions (processing elements in order, aborting at the first raise). -/
def mapExcept {α β : Type} (f : α → Except PyErr β) : List α → Except PyErr (List β)
  | [] => .ok []
  | x :: xs =>
      match f x with
      | .error e => .error e
      | .ok y =>
          match mapExcept f xs with
          | .error e => .error e
          | .ok ys => .ok (y :: ys)

/-- One iteration of the loop in `get_mixed_types_str_keys` (filler.py lines 284-294):
a string is stripped and used directly, a dict contributes `list(item.keys())[0]`
(raising `IndexError` when the dict is empty), anything else contributes the
sentinel `"error here"`. -/
def strKeyLabel : Value → Except PyErr Scalar
  | .scalar (.str s) => .ok (.str (rstripNewlines s))
  | .dict [] => .error .indexError
  | .dict ((k, _) :: _) => .ok k
  | _ => .ok (.str "error here")

/-- The return step of `get_mixed_types_str_keys` (filler.py lines 296-300):
`if len(mixed_str_key_list) == 1: return str(mixed_str_key_list[0])`, else return
the whole list. -/
def strKeysResult : List Scalar → Value
  | [l] => .scalar (.str (pyStr l))
  | ls => .list (ls.map Value.scalar)

/-- `get_mixed_types_str_keys` (filler.py lines 269-300): a dict input is first
replaced by `list(content.values())`; each element then yields a label via
`strKeyLabel`; a length-1 label list is collapsed to `str(mixed_str_key_list[0])`. -/
def get_mixed_types_str_keys (content : Value) : Except PyErr Value :=
  match (match content with
         | .dict kvs => some (kvs.map Prod.snd)
         | other => pyIter other) with
  | Option.none => .error .typeError
  | some items =>
      match mapExcept strKeyLabel items with
      | .error e => .error e
      | .ok ls => .ok (strKeysResult ls)

/-- One iteration of the loop in `get_mixed_types_dict_values` (filler.py lines
319-325): a dict contributes the element-by-element copy of `list(item.values())[0]`
(raising `IndexError` on an empty dict and `TypeError` when that first value is not
iterable); any other element is skipped. -/
def groupOf : Value → Except PyErr (Option (List Value))
  | .dict [] => .error .indexError
  | .dict ((_, v) :: _) =>
      match pyIter v with
      | some xs => .ok (some xs)
      | Option.none => .error .typeError
  | _ => .ok Option.none

/-- The return step of `get_mixed_types_dict_values` (filler.py lines 327-336):
Python `None` if no dict was found, the sole group directly if exactly one was
found, the list of groups otherwise. -/
def dictValuesResult : List (List Value) → Option Value
  | [] => Option.none
  | [g] => some (.list g)
  | groups => some (.list (groups.map Value.list))

/-- `get_mixed_types_dict_values` (filler.py lines 303-336): scan the iterable input,
collecting one group per dict element, then collapse via `dictValuesResult`. -/
def get_mixed_types_dict_values (content : Value) : Except PyErr (Option Value) :=
  match pyIter content with
  | Option.none => .error .typeError
  | some items =>
      match mapExcept groupOf items with
      | .error e => .error e
      | .ok gs => .ok (dictValuesResult (gs.filterMap id))

/-- Erase string content at every leaf (keys included), keeping all structure and
all non-string leaves: two values have the same `skeleton` exactly when they have
identical container nesting, lengths, key cardinality and iteration order, equal
non-string leaves, and differ at most in the content of string leaves. -/
def skeletonScalar : Scalar → Scalar
  | .str _ => .str ""
  | s => s

mutual
def skeleton : Value → Value
  | .scalar s => .scalar (skeletonScalar s)
  | .list xs => .list (skeletonList xs)
  | .dict kvs => .dict (skeletonPairs kvs)

def skeletonList : List Value → List Value
  | [] => []
  | x :: xs => skeleton x :: skeletonList xs

def skeletonPairs : List (Scalar × Value) → List (Scalar × Value)
  | [] => []
  | (k, v) :: rest => (skeletonScalar k, skeleton v) :: skeletonPairs rest
end

mutual
/-- At every dict node of the tree, the keys remain pairwise distinct after
normalization (so the rebuilt dict loses no entry). -/
def noKeyCollisions : Value → Bool
  | .scalar _ => true
  | .list xs => noKeyCollisionsList xs
  | .dict kvs =>
      decide ((kvs.map (fun p => transformScalar p.1)).Nodup) && noKeyCollisionsPairs kvs

def noKeyCollisionsList : List Value → Bool
  | [] => true
  | x :: xs => noKeyCollisions x && noKeyCollisionsList xs

def noKeyCollisionsPairs : List (Scalar × Value) → Bool
  | [] => true
  | (_, v) :: rest => noKeyCollisions v && noKeyCollisionsPairs rest
end

/-- Modelled from the spec's wording of the per-element labelling rule (for the
refinement statement of C4): "if it is a string, normalize it (strip trailing
newlines) and use it as the label; if it is a Mapping, use its first key (by
iteration order) as the label; for any other type, substitute a fixed sentinel
label".  Compared against the source-side `strKeyLabel`. -/
def specLabel : Value → Scalar
  | .scalar (.str s) => .str (rstripNewlines s)
  | .dict ((k, _) :: _) => k
  | _ => .str "error here"

/-- Elements on which both decomposers are exception-free: anything that is not a
dict, or a dict with at least one key whose first value is iterable. -/
def goodElem : Value → Bool
  | .dict [] => false
  | .dict ((_, v) :: _) => (pyIter v).isSome
  | _ => true

/-- Whether a value is a Python dict (a grouping element of the outline). -/
def isDict : Value → Bool
  | .dict _ => true
  | _ => false

/-! ### Dictionary rebuild lemmas -/

lemma pyDictInsert_keys_of_mem {d : List (Scalar × Value)} {k : Scalar} {v : Value}
    (h : k ∈ d.map Prod.fst) :
    (pyDictInsert d k v).map Prod.fst = d.map Prod.fst := by
  unfold pyDictInsert
  rw [if_pos h, List.map_map]
  refine List.map_congr_left (fun p _ => ?_)
  by_cases hp : p.1 = k <;> simp [hp]

lemma pyDictInsert_of_not_mem {d : List (Scalar × Value)} {k : Scalar} {v : Value}
    (h : k ∉ d.map Prod.fst) :
    pyDictInsert d k v = d ++ [(k, v)] := by
  unfold pyDictInsert
  rw [if_neg h]

lemma pyDictInsert_keys_nodup {d : List (Scalar × Value)} {k : Scalar} {v : Value}
    (h : (d.map Prod.fst).Nodup) :
    ((pyDictInsert d k v).map Prod.fst).Nodup := by
  by_cases hk : k ∈ d.map Prod.fst
  · rw [pyDictInsert_keys_of_mem hk]; exact h
  · rw [pyDictInsert_of_not_mem hk]
    simp only [List.map_append, List.map_cons, List.map_nil]
    simp [List.nodup_append, h, hk]

lemma mem_pyDictInsert {d : List (Scalar × Value)} {k : Scalar} {v : Value}
    {p : Scalar × Value} (h : p ∈ pyDictInsert d k v) :
    p ∈ d ∨ p = (k, v) := by
  unfold pyDictInsert at h
  by_cases hk : k ∈ d.map Prod.fst
  · rw [if_pos hk] at h
    rcases List.mem_map.mp h with ⟨q, hq, rfl⟩
    by_cases hq1 : q.1 = k
    · right; simp [hq1]
    · left; simpa [hq1] using hq
  · rw [if_neg hk] at h
    rcases List.mem_append.mp h with h | h
    · exact Or.inl h
    · right; simpa using h

lemma transformPairs_keys_nodup {kvs : List (Scalar × Value)} :
    ∀ {acc : List (Scalar × Value)}, (acc.map Prod.fst).Nodup →
    ((transformPairs kvs acc).map Prod.fst).Nodup := by
  induction kvs with
  | nil => intro acc h; exact h
  | cons q rest ih =>
      intro acc h
      obtain ⟨k, v⟩ := q
      rw [transformPairs]
      exact ih (pyDictInsert_keys_nodup h)

lemma mem_transformPairs {kvs : List (Scalar × Value)} :
    ∀ {acc : List (Scalar × Value)} {p : Scalar × Value}, p ∈ transformPairs kvs acc →
    p ∈ acc ∨ ∃ q ∈ kvs, p = (transformScalar q.1, transform_data q.2) := by
  induction kvs with
  | nil => intro acc p h; exact Or.inl h
  | cons q0 rest ih =>
      intro acc p h
      obtain ⟨k, v⟩ := q0
      rw [transformPairs] at h
      rcases ih h with h' | ⟨q, hq, rfl⟩
      · rcases mem_pyDictInsert h' with h'' | rfl
        · exact Or.inl h''
        · exact Or.inr ⟨(k, v), List.mem_cons_self .., rfl⟩
      · exact Or.inr ⟨q, List.mem_cons_of_mem _ hq, rfl⟩

/-- When the transformed keys are pairwise distinct (and fresh for the accumulator),
the dict comprehension is just a pointwise map over the entries. -/
lemma transformPairs_eq_map {kvs : List (Scalar × Value)}
    (hnd : (kvs.map (fun q => transformScalar q.1)).Nodup) :
    ∀ acc : List (Scalar × Value), (∀ q ∈ kvs, transformScalar q.1 ∉ acc.map Prod.fst) →
    transformPairs kvs acc
      = acc ++ kvs.map (fun q => (transformScalar q.1, transform_data q.2)) := by
  induction kvs with
  | nil => intro acc _; simp [transformPairs]
  | cons q0 rest ih =>
      intro acc hacc
      obtain ⟨k, v⟩ := q0
      rw [transformPairs,
        pyDictInsert_of_not_mem (hacc (k, v) (List.mem_cons_self ..))]
      simp only [List.map_cons] at hnd
      have hk_rest : transformScalar k ∉ rest.map (fun q => transformScalar q.1) :=
        (List.nodup_cons.mp hnd).1
      rw [ih (List.nodup_cons.mp hnd).2 (acc ++ [(transformScalar k, transform_data v)])
        (by
          intro q hq
          simp only [List.map_append, List.map_cons, List.map_nil, List.mem_append,
            List.mem_singleton]
          rintro (h | h)
          · exact hacc q (List.mem_cons_of_mem _ hq) h
          · exact hk_rest (h ▸ List.mem_map_of_mem (fun q => transformScalar q.1) hq))]
      simp

/-- Re-inserting an already-normalized, collision-free entry list reproduces it. -/
lemma transformPairs_fixed {l : List (Scalar × Value)}
    (hnd : (l.map Prod.fst).Nodup)
    (hfix : ∀ p ∈ l, transformScalar p.1 = p.1 ∧ transform_data p.2 = p.2) :
    transformPairs l [] = l := by
  have hmap : l.map (fun q => (transformScalar q.1, transform_data q.2)) = l := by
    conv_rhs => rw [← List.map_id l]
    refine List.map_congr_left (fun p hp => ?_)
    obtain ⟨h1, h2⟩ := hfix p hp
    simp [h1, h2]
  have hnd' : (l.map (fun q => transformScalar q.1)).Nodup := by
    have : l.map (fun q => transformScalar q.1) = l.map Prod.fst :=
      List.map_congr_left (fun p hp => (hfix p hp).1)
    rw [this]; exact hnd
  have := transformPairs_eq_map hnd' [] (by simp)
  rw [this, List.nil_append, hmap]

/-! ### Trailing-newline stripping lemmas -/

lemma rstripNewlines_data (s : String) :
    (rstripNewlines s).data = s.data.rdropWhile (· = '\n') := rfl

lemma rstripNewlines_idem (s : String) :
    rstripNewlines (rstripNewlines s) = rstripNewlines s :=
  congrArg String.mk (List.rdropWhile_idempotent (· = '\n') s.data)

lemma transformScalar_idem (s : Scalar) :
    transformScalar (transformScalar s) = transformScalar s := by
  cases s <;> simp [transformScalar, rstripNewlines_idem]

/-- The stripped string is a prefix of the original: the original is the stripped
string followed by a run of newline characters. -/
lemma rstripNewlines_decomposition (s : String) :
    ∃ m : Nat, s.data = (rstripNewlines s).data ++ List.replicate m '\n' := by
  refine ⟨(s.data.rtakeWhile (· = '\n')).length, ?_⟩
  rw [rstripNewlines_data]
  have happ : s.data.rdropWhile (· = '\n') ++ s.data.rtakeWhile (· = '\n') = s.data := by
    rw [List.rdropWhile, List.rtakeWhile, ← List.reverse_append,
      List.takeWhile_append_dropWhile, List.reverse_reverse]
  have hrep : s.data.rtakeWhile (· = '\n')
      = List.replicate (s.data.rtakeWhile (· = '\n')).length '\n' := by
    rw [List.eq_replicate_iff]
    exact ⟨rfl, fun b hb => by simpa using List.mem_rtakeWhile_imp hb⟩
  conv_lhs => rw [← happ]
  rw [← hrep]

/-- The stripped string does not end in a newline. -/
lemma rstripNewlines_getLast (s : String) (h : (rstripNewlines s).data ≠ []) :
    (rstripNewlines s).data.getLast h ≠ '\n' := by
  have h' : s.data.rdropWhile (· = '\n') ≠ [] := by
    rw [← rstripNewlines_data]; exact h
  have := List.rdropWhile_last_not (· = '\n') s.data h'
  simpa using this

/-! ### Idempotence of the tree normalizer -/

/-- The dict case of idempotence, with the element-wise inductive hypothesis made
explicit: the first pass leaves an entry list whose keys are pairwise distinct and
all of whose components are fixed points, so a second pass reproduces it. -/
lemma transformPairs_idem_of (kvs : List (Scalar × Value))
    (ih : ∀ q ∈ kvs, transform_data (transform_data q.2) = transform_data q.2) :
    transformPairs (transformPairs kvs []) [] = transformPairs kvs [] := by
  have hnd : ((transformPairs kvs []).map Prod.fst).Nodup :=
    transformPairs_keys_nodup (by simp)
  have hfix : ∀ p ∈ transformPairs kvs [],
      transformScalar p.1 = p.1 ∧ transform_data p.2 = p.2 := by
    intro p hp
    rcases mem_transformPairs hp with hin | ⟨q, hq, rfl⟩
    · cases hin
    · exact ⟨transformScalar_idem _, ih q hq⟩
  exact transformPairs_fixed hnd hfix

mutual
theorem transform_data_idem : ∀ v : Value,
    transform_data (transform_data v) = transform_data v
  | .scalar s => congrArg Value.scalar (transformScalar_idem s)
  | .list xs => congrArg Value.list (transformList_idem xs)
  | .dict kvs => congrArg Value.dict (transformPairs_idem_of kvs (transformPairsIH kvs))

theorem transformList_idem : ∀ xs : List Value,
    transformList (transformList xs) = transformList xs
  | [] => rfl
  | x :: xs => by
      rw [transformList, transformList, transform_data_idem x, transformList_idem xs]

theorem transformPairsIH : ∀ (kvs : List (Scalar × Value)) (q : Scalar × Value),
    q ∈ kvs → transform_data (transform_data q.2) = transform_data q.2
  | (k, v) :: rest, q, hq => by
      rcases List.mem_cons.mp hq with rfl | h
      · exact transform_data_idem v
      · exact transformPairsIH rest q h
end

/-! ### Shape preservation of the tree normalizer -/

lemma skeletonScalar_transform (s : Scalar) :
    skeletonScalar (transformScalar s) = skeletonScalar s := by
  cases s <;> simp [transformScalar, skeletonScalar]

mutual
theorem skeleton_transform : ∀ v : Value, noKeyCollisions v = true →
    skeleton (transform_data v) = skeleton v
  | .scalar s, _ => congrArg Value.scalar (skeletonScalar_transform s)
  | .list xs, h => congrArg Value.list (skeletonList_transform xs h)
  | .dict kvs, h => by
      rw [noKeyCollisions, Bool.and_eq_true, decide_eq_true_eq] at h
      rw [transform_data, skeleton, skeleton,
        transformPairs_eq_map h.1 [] (by simp), List.nil_append]
      exact congrArg Value.dict (skeletonPairs_transform kvs h.2)

theorem skeletonList_transform : ∀ xs : List Value, noKeyCollisionsList xs = true →
    skeletonList (transformList xs) = skeletonList xs
  | [], _ => rfl
  | x :: xs, h => by
      rw [noKeyCollisionsList, Bool.and_eq_true] at h
      rw [transformList, skeletonList, skeletonList,
        skeleton_transform x h.1, skeletonList_transform xs h.2]

theorem skeletonPairs_transform : ∀ kvs : List (Scalar × Value),
    noKeyCollisionsPairs kvs = true →
    skeletonPairs (kvs.map (fun q => (transformScalar q.1, transform_data q.2)))
      = skeletonPairs kvs
  | [], _ => rfl
  | (k, v) :: rest, h => by
      rw [noKeyCollisionsPairs, Bool.and_eq_true] at h
      rw [List.map_cons, skeletonPairs, skeletonPairs, skeletonScalar_transform k,
        skeleton_transform v h.1, skeletonPairs_transform rest h.2]
end

/-! ### Decomposer helper lemmas -/

/-- Values of a dict input: the `content = list(content.values())` reduction step. -/
lemma str_keys_dict_input (kvs : List (Scalar × Value)) :
    get_mixed_types_str_keys (.dict kvs)
      = get_mixed_types_str_keys (.list (kvs.map Prod.snd)) := rfl

/-- A successful label scan over a list input yields the collapsed result of the
label list. -/
lemma str_keys_ok {items : List Value} {ls : List Scalar}
    (h : mapExcept strKeyLabel items = .ok ls) :
    get_mixed_types_str_keys (.list items) = .ok (strKeysResult ls) := by
  have hdef : get_mixed_types_str_keys (.list items)
      = (match mapExcept strKeyLabel items with
         | .error e => .error e
         | .ok ls => .ok (strKeysResult ls)) := rfl
  rw [hdef, h]

/-- A failing label scan over a list input propagates the exception. -/
lemma str_keys_error {items : List Value} {e : PyErr}
    (h : mapExcept strKeyLabel items = .error e) :
    get_mixed_types_str_keys (.list items) = .error e := by
  have hdef : get_mixed_types_str_keys (.list items)
      = (match mapExcept strKeyLabel items with
         | .error e => .error e
         | .ok ls => .ok (strKeysResult ls)) := rfl
  rw [hdef, h]

/-- The length-1 collapse branch of the label result. -/
lemma strKeysResult_singleton (l : Scalar) :
    strKeysResult [l] = .scalar (.str (pyStr l)) := rfl

/-- The general branch of the label result: any label list of length ≠ 1 is
returned whole, in order. -/
lemma strKeysResult_general {ls : List Scalar} (hlen : ls.length ≠ 1) :
    strKeysResult ls = .list (ls.map Value.scalar) := by
  match ls, hlen with
  | [], _ => rfl
  | [l], hlen => exact absurd rfl hlen
  | l1 :: l2 :: rest, _ => rfl

/-- A successful group scan over a list input yields the collapsed result of the
group list. -/
lemma dict_values_ok {items : List Value} {gs : List (Option (List Value))}
    (h : mapExcept groupOf items = .ok gs) :
    get_mixed_types_dict_values (.list items)
      = .ok (dictValuesResult (gs.filterMap id)) := by
  have hdef : get_mixed_types_dict_values (.list items)
      = (match mapExcept groupOf items with
         | .error e => .error e
         | .ok gs => .ok (dictValuesResult (gs.filterMap id))) := rfl
  rw [hdef, h]

/-- A failing group scan over a list input propagates the exception. -/
lemma dict_values_error {items : List Value} {e : PyErr}
    (h : mapExcept groupOf items = .error e) :
    get_mixed_types_dict_values (.list items) = .error e := by
  have hdef : get_mixed_types_dict_values (.list items)
      = (match mapExcept groupOf items with
         | .error e => .error e
         | .ok gs => .ok (dictValuesResult (gs.filterMap id))) := rfl
  rw [hdef, h]

/-- The multi-group branch of the group result. -/
lemma dictValuesResult_general {groups : List (List Value)} (hlen : 2 ≤ groups.length) :
    dictValuesResult groups = some (.list (groups.map Value.list)) := by
  match groups, hlen with
  | g1 :: g2 :: rest, _ => rfl

/-- A non-dict element contributes no group and raises nothing. -/
lemma groupOf_nondict {x : Value} (h : ∀ kvs, x ≠ .dict kvs) :
    groupOf x = .ok Option.none := by
  match x with
  | .scalar _ => rfl
  | .list _ => rfl
  | .dict kvs => exact absurd rfl (h kvs)

/-- On a list without dict elements the group scan succeeds with all-skipped output. -/
lemma mapExcept_groupOf_nondict : ∀ {items : List Value},
    (∀ x ∈ items, ∀ kvs, x ≠ Value.dict kvs) →
    mapExcept groupOf items = .ok (items.map (fun _ => Option.none)) := by
  intro items
  induction items with
  | nil => intro _; rfl
  | cons x xs ih =>
      intro h
      rw [mapExcept, groupOf_nondict (h x (List.mem_cons_self ..)),
        ih (fun y hy => h y (List.mem_cons_of_mem _ hy)), List.map_cons]

/-- A successful effectful map preserves length. -/
lemma mapExcept_ok_length {α β : Type} {f : α → Except PyErr β} :
    ∀ {l : List α} {l' : List β}, mapExcept f l = .ok l' → l'.length = l.length := by
  intro l
  induction l with
  | nil => intro l' h; rw [mapExcept] at h; cases h; rfl
  | cons x xs ih =>
      intro l' h
      rw [mapExcept] at h
      match hfx : f x with
      | .error e => rw [hfx] at h; cases h
      | .ok y =>
          rw [hfx] at h
          match hrest : mapExcept f xs with
          | .error e => rw [hrest] at h; cases h
          | .ok ys =>
              rw [hrest] at h
              cases h
              simp [ih hrest]


lemma strKeyLabel_ok_of_good {x : Value} (h : goodElem x = true) :
    ∃ l, strKeyLabel x = .ok l := by
  match x with
  | .scalar (.str s) => exact ⟨_, rfl⟩
  | .scalar (.int _) => exact ⟨_, rfl⟩
  | .scalar (.bool _) => exact ⟨_, rfl⟩
  | .scalar .none => exact ⟨_, rfl⟩
  | .list _ => exact ⟨_, rfl⟩
  | .dict [] => exact absurd h (by simp [goodElem])
  | .dict ((k, v) :: rest) => exact ⟨k, rfl⟩

lemma groupOf_ok_of_good {x : Value} (h : goodElem x = true) :
    ∃ g, groupOf x = .ok g := by
  match x with
  | .scalar _ => exact ⟨_, rfl⟩
  | .list _ => exact ⟨_, rfl⟩
  | .dict [] => exact absurd h (by simp [goodElem])
  | .dict ((k, v) :: rest) =>
      have hdef : groupOf (.dict ((k, v) :: rest))
          = (match pyIter v with
             | some xs => .ok (some xs)
             | Option.none => .error .typeError) := rfl
      rw [goodElem] at h
      match hv : pyIter v with
      | some xs => exact ⟨some xs, by rw [hdef, hv]⟩
      | Option.none => rw [hv] at h; cases h

lemma mapExcept_ok_of_forall {α β : Type} {f : α → Except PyErr β} :
    ∀ {l : List α}, (∀ x ∈ l, ∃ y, f x = .ok y) → ∃ ys, mapExcept f l = .ok ys := by
  intro l
  induction l with
  | nil => intro _; exact ⟨[], rfl⟩
  | cons x xs ih =>
      intro h
      obtain ⟨y, hy⟩ := h x (List.mem_cons_self ..)
      obtain ⟨ys, hys⟩ := ih (fun z hz => h z (List.mem_cons_of_mem _ hz))
      exact ⟨y :: ys, by rw [mapExcept, hy, hys]⟩

/-- The source-side per-element label agrees with the spec-side rule on every
element that is not an empty dict. -/
lemma strKeyLabel_eq_specLabel {x : Value} (h : x ≠ .dict []) :
    strKeyLabel x = .ok (specLabel x) := by
  match x with
  | .scalar (.str s) => rfl
  | .scalar (.int _) => rfl
  | .scalar (.bool _) => rfl
  | .scalar .none => rfl
  | .list _ => rfl
  | .dict [] => exact absurd rfl h
  | .dict ((k, v) :: rest) => rfl

lemma mapExcept_specLabel : ∀ {items : List Value},
    (∀ x ∈ items, x ≠ Value.dict []) →
    mapExcept strKeyLabel items = .ok (items.map specLabel) := by
  intro items
  induction items with
  | nil => intro _; rfl
  | cons x xs ih =>
      intro h
      rw [mapExcept, strKeyLabel_eq_specLabel (h x (List.mem_cons_self ..)),
        ih (fun y hy => h y (List.mem_cons_of_mem _ hy)), List.map_cons]

/-- With at least one non-dict element in the scan, strictly fewer groups than
elements are produced. -/
lemma filterMap_length_lt {x : Value} (hxd : ∀ kvs, x ≠ .dict kvs) :
    ∀ {items : List Value} {gs : List (Option (List Value))},
    mapExcept groupOf items = .ok gs → x ∈ items →
    (gs.filterMap id).length < items.length := by
  intro items
  induction items with
  | nil => intro gs _ hx; cases hx
  | cons y ys ih =>
      intro gs h hx
      rw [mapExcept] at h
      match hfy : groupOf y with
      | .error e => rw [hfy] at h; cases h
      | .ok g? =>
          rw [hfy] at h
          match hrest : mapExcept groupOf ys with
          | .error e => rw [hrest] at h; cases h
          | .ok gs' =>
              rw [hrest] at h
              cases h
              have hlen' : gs'.length = ys.length := mapExcept_ok_length hrest
              rcases List.mem_cons.mp hx with rfl | hx'
              · have hnone : g? = Option.none := by
                  rw [groupOf_nondict hxd] at hfy
                  exact (Except.ok.inj hfy).symm
                subst hnone
                have : (gs'.filterMap id).length ≤ gs'.length :=
                  List.length_filterMap_le id gs'
                simp only [List.filterMap_cons, id_eq, List.length_cons]
                omega
              · have hlt := ih hrest hx'
                match g? with
                | Option.none =>
                    simp only [List.filterMap_cons, id_eq, List.length_cons]
                    omega
                | some g =>
                    simp only [List.filterMap_cons, id_eq, List.length_cons]
                    omega

lemma not_dict_of_isDict_false {x : Value} (h : isDict x = false) :
    ∀ kvs, x ≠ .dict kvs := by
  match x with
  | .scalar _ => exact fun _ h' => Value.noConfusion h'
  | .list _ => exact fun _ h' => Value.noConfusion h'
  | .dict kvs => rw [isDict] at h; cases h

/-- Option-valued variant: the stripped string's last character is never a newline. -/
lemma rstripNewlines_getLast' (s : String) :
    (rstripNewlines s).data.getLast? ≠ some '\n' := by
  intro hcontra
  have hmem : '\n' ∈ (rstripNewlines s).data.getLast? := by rw [hcontra]; rfl
  rcases List.mem_getLast?_eq_getLast hmem with ⟨h, heq⟩
  exact rstripNewlines_getLast s h heq.symm

/-! ### Claim theorems -/

/-- C1 (counterexample): the decomposers can raise on a malformed element of an
iterable top-level input, contradicting the claim that exceptions occur only for an
absent or non-iterable top level.  An empty-dict element makes
`get_mixed_types_str_keys` raise `IndexError` (from `list(item.keys())[0]`), and a
dict element whose first value is not iterable makes `get_mixed_types_dict_values`
raise `TypeError`. -/
theorem claim_C1_counterexample :
    get_mixed_types_str_keys (.list [.dict []]) = .error .indexError ∧
    get_mixed_types_dict_values (.list [.dict [(.str "k", .scalar (.int 5))]])
      = .error .typeError :=
  ⟨rfl, rfl⟩

/-- C1 (amended): on any list input all of whose elements are either non-dicts
(degraded to the sentinel label / skipped, never fatal) or dicts with at least one
key whose first value is iterable, both decomposers return without raising; and a
non-iterable top-level input raises `TypeError` in both. -/
theorem claim_C1_amended (items : List Value)
    (h : ∀ x ∈ items, goodElem x = true) :
    (∃ r, get_mixed_types_str_keys (.list items) = .ok r) ∧
    (∃ r, get_mixed_types_dict_values (.list items) = .ok r) ∧
    (∀ n : Int, get_mixed_types_str_keys (.scalar (.int n)) = .error .typeError ∧
      get_mixed_types_dict_values (.scalar (.int n)) = .error .typeError) := by
  refine ⟨?_, ?_, fun n => ⟨rfl, rfl⟩⟩
  · obtain ⟨ls, hls⟩ :=
      mapExcept_ok_of_forall (fun x hx => strKeyLabel_ok_of_good (h x hx))
    exact ⟨_, str_keys_ok hls⟩
  · obtain ⟨gs, hgs⟩ :=
      mapExcept_ok_of_forall (fun x hx => groupOf_ok_of_good (h x hx))
    exact ⟨_, dict_values_ok hgs⟩

/-- C1 (witness): a concrete mixed list — a string, a well-formed grouping, and a
malformed bare-int element — on which both decomposers succeed. -/
theorem claim_C1_witness :
    (∀ x ∈ ([.scalar (.str "a"), .dict [(.str "b", .list [])],
        .scalar (.int 7)] : List Value), goodElem x = true) ∧
    (∃ r, get_mixed_types_str_keys (.list [.scalar (.str "a"),
        .dict [(.str "b", .list [])], .scalar (.int 7)]) = .ok r) ∧
    (∃ r, get_mixed_types_dict_values (.list [.scalar (.str "a"),
        .dict [(.str "b", .list [])], .scalar (.int 7)]) = .ok r) := by
  have h := claim_C1_amended
    [.scalar (.str "a"), .dict [(.str "b", .list [])], .scalar (.int 7)] (by decide)
  exact ⟨by decide, h.1, h.2.1⟩

/-- C2 (counterexample): normalization can collide two distinct keys (here `"a"` and
`"a\n"`), so the rebuilt mapping has smaller key cardinality than the input and the
claimed shape preservation fails. -/
theorem claim_C2_counterexample :
    skeleton (transform_data
        (.dict [(.str "a", .scalar (.int 1)), (.str "a\n", .scalar (.int 2))]))
      ≠ skeleton (.dict [(.str "a", .scalar (.int 1)), (.str "a\n", .scalar (.int 2))]) := by
  decide

/-- C2 (amended): for every tree in which no two keys of any mapping collide after
normalization, `transform_data` preserves the whole container skeleton — nesting,
sequence lengths, key cardinality and iteration order, and all non-string leaves —
changing at most the content of string leaves. -/
theorem claim_C2_amended (t : Value) (h : noKeyCollisions t = true) :
    skeleton (transform_data t) = skeleton t :=
  skeleton_transform t h

/-- C2 (witness): a concrete nested tree with distinct normalized keys whose
skeleton is preserved. -/
theorem claim_C2_witness :
    noKeyCollisions (.dict [(.str "k\n", .list [.scalar (.str "x\n"),
        .dict [(.int 3, .scalar .none)]])]) = true ∧
    skeleton (transform_data (.dict [(.str "k\n", .list [.scalar (.str "x\n"),
        .dict [(.int 3, .scalar .none)]])]))
      = skeleton (.dict [(.str "k\n", .list [.scalar (.str "x\n"),
        .dict [(.int 3, .scalar .none)]])]) :=
  ⟨by decide, claim_C2_amended _ (by decide)⟩

/-- C6: the tree normalizer is idempotent — `transform_data (transform_data v)`
equals `transform_data v` for every value `v`. -/
theorem claim_C6 : ∀ v : Value, transform_data (transform_data v) = transform_data v :=
  transform_data_idem

/-- C3: length-1 collapsing in both decomposers.  If the label scan produced exactly
one label, `get_mixed_types_str_keys` returns it as a bare string (via `str()`)
rather than a one-element list; any other label count returns the whole list in
order.  If the group scan found exactly one group, `get_mixed_types_dict_values`
returns that group's content list directly, not wrapped; two or more groups are
returned as the full list of groups in order. -/
theorem claim_C3 :
    (∀ (items : List Value) (l : Scalar),
      mapExcept strKeyLabel items = .ok [l] →
      get_mixed_types_str_keys (.list items) = .ok (.scalar (.str (pyStr l)))) ∧
    (∀ (items : List Value) (ls : List Scalar),
      mapExcept strKeyLabel items = .ok ls → ls.length ≠ 1 →
      get_mixed_types_str_keys (.list items) = .ok (.list (ls.map Value.scalar))) ∧
    (∀ (items : List Value) (gs : List (Option (List Value))) (g : List Value),
      mapExcept groupOf items = .ok gs → gs.filterMap id = [g] →
      get_mixed_types_dict_values (.list items) = .ok (some (.list g))) ∧
    (∀ (items : List Value) (gs : List (Option (List Value))),
      mapExcept groupOf items = .ok gs → 2 ≤ (gs.filterMap id).length →
      get_mixed_types_dict_values (.list items)
        = .ok (some (.list ((gs.filterMap id).map Value.list)))) := by
  refine ⟨?_, ?_, ?_, ?_⟩
  · intro items l h
    rw [str_keys_ok h, strKeysResult_singleton]
  · intro items ls h hlen
    rw [str_keys_ok h, strKeysResult_general hlen]
  · intro items gs g h hg
    rw [dict_values_ok h, hg]
    rfl
  · intro items gs h hlen
    rw [dict_values_ok h, dictValuesResult_general hlen]

/-- C3 (witness): the four collapse branches at concrete inputs. -/
theorem claim_C3_witness :
    get_mixed_types_str_keys (.list [.scalar (.str "only item\n")])
      = .ok (.scalar (.str "only item")) ∧
    get_mixed_types_str_keys (.list [.scalar (.str "a"),
        .dict [(.str "b", .list [.scalar (.int 1), .scalar (.int 2)])],
        .scalar (.str "c")])
      = .ok (.list [.scalar (.str "a"), .scalar (.str "b"), .scalar (.str "c")]) ∧
    get_mixed_types_dict_values (.list [.dict [(.str "b",
        .list [.scalar (.int 1), .scalar (.int 2), .scalar (.int 3)])]])
      = .ok (some (.list [.scalar (.int 1), .scalar (.int 2), .scalar (.int 3)])) ∧
    get_mixed_types_dict_values (.list [.dict [(.str "b", .list [.scalar (.int 1)])],
        .dict [(.str "d", .list [.scalar (.int 2)])]])
      = .ok (some (.list [.list [.scalar (.int 1)], .list [.scalar (.int 2)]])) := by
  refine ⟨?_, ?_, ?_, ?_⟩
  · exact claim_C3.1 _ (.str "only item") (by decide)
  · exact claim_C3.2.1 _ [.str "a", .str "b", .str "c"] (by decide) (by decide)
  · exact claim_C3.2.2.1 _
      [some [.scalar (.int 1), .scalar (.int 2), .scalar (.int 3)]]
      [.scalar (.int 1), .scalar (.int 2), .scalar (.int 3)] (by decide) (by decide)
  · exact claim_C3.2.2.2 _
      [some [.scalar (.int 1)], some [.scalar (.int 2)]] (by decide) (by decide)

/-- C4: `get_mixed_types_str_keys` first reduces a dict input to the list of its
values (discarding keys), then labels each element in order by the spec rule
(`specLabel`): a string is stripped of trailing newlines, a nonempty dict yields
its first key, and any other element yields the sentinel `"error here"`. -/
theorem claim_C4 :
    (∀ kvs : List (Scalar × Value),
      get_mixed_types_str_keys (.dict kvs)
        = get_mixed_types_str_keys (.list (kvs.map Prod.snd))) ∧
    (∀ items : List Value, (∀ x ∈ items, x ≠ Value.dict []) →
      mapExcept strKeyLabel items = .ok (items.map specLabel)) ∧
    (∀ s : String, specLabel (.scalar (.str s)) = .str (rstripNewlines s)) ∧
    (∀ (k : Scalar) (v : Value) (rest : List (Scalar × Value)),
      specLabel (.dict ((k, v) :: rest)) = k) ∧
    (∀ n : Int, specLabel (.scalar (.int n)) = .str "error here") ∧
    (∀ xs : List Value, specLabel (.list xs) = .str "error here") :=
  ⟨fun _ => rfl, fun _ h => mapExcept_specLabel h,
   fun _ => rfl, fun _ _ _ => rfl, fun _ => rfl, fun _ => rfl⟩

/-- C4 (witness): the per-element rule on a concrete mixed list — a string, a
grouping with a non-string key, and a malformed bool element. -/
theorem claim_C4_witness :
    mapExcept strKeyLabel
      [.scalar (.str "a\n"), .dict [(.int 5, .scalar .none)], .scalar (.bool true)]
      = .ok [.str "a", .int 5, .str "error here"] := by
  have h := claim_C4.2.1
    [.scalar (.str "a\n"), .dict [(.int 5, .scalar .none)], .scalar (.bool true)]
    (by decide)
  exact h

/-- C5: on a list input with no dict elements, `get_mixed_types_dict_values`
returns Python `None` (the source prints its "no dictionaries found" notice on
exactly this branch), and that result is distinct from every non-absent result —
in particular from a present-but-empty group list. -/
theorem claim_C5 (items : List Value)
    (h : ∀ x ∈ items, isDict x = false) :
    get_mixed_types_dict_values (.list items) = .ok Option.none ∧
    (∀ g : List Value,
      get_mixed_types_dict_values (.list items) ≠ .ok (some (.list g))) := by
  have hmap := mapExcept_groupOf_nondict
    (fun x hx => not_dict_of_isDict_false (h x hx))
  have hres := dict_values_ok hmap
  have hempty : ((items.map
      (fun _ => (Option.none : Option (List Value)))).filterMap id) = [] := by
    induction items with
    | nil => rfl
    | cons x xs ih => simp [List.filterMap_cons, ih]
  rw [hempty] at hres
  refine ⟨hres, fun g hg => ?_⟩
  rw [hres] at hg
  exact Option.noConfusion (Except.ok.inj hg)

/-- C5 (witness): the spec's example `["a", "c"]` yields the absent signal. -/
theorem claim_C5_witness :
    get_mixed_types_dict_values (.list [.scalar (.str "a"), .scalar (.str "c")])
      = .ok Option.none ∧
    get_mixed_types_dict_values (.list [.scalar (.str "a"), .scalar (.str "c")])
      ≠ .ok (some (.list [])) := by
  have h := claim_C5 [.scalar (.str "a"), .scalar (.str "c")] (by decide)
  exact ⟨h.1, h.2 []⟩

/-- C7: on a string leaf `transform_data` removes exactly the trailing run of
newline characters — the original equals the result followed by a run of newlines,
and the result does not end in a newline (so other characters, including other
trailing whitespace, are untouched); on every non-container, non-string leaf it
returns the value unchanged (the source prints its advisory notice on exactly that
branch and never fails). -/
theorem claim_C7 :
    (∀ s : String,
      transform_data (.scalar (.str s)) = .scalar (.str (rstripNewlines s))) ∧
    (∀ s : String,
      ∃ m : Nat, s.data = (rstripNewlines s).data ++ List.replicate m '\n') ∧
    (∀ s : String, (rstripNewlines s).data.getLast? ≠ some '\n') ∧
    (∀ n : Int, transform_data (.scalar (.int n)) = .scalar (.int n)) ∧
    (∀ b : Bool, transform_data (.scalar (.bool b)) = .scalar (.bool b)) ∧
    transform_data (.scalar .none) = .scalar .none :=
  ⟨fun _ => rfl, rstripNewlines_decomposition, rstripNewlines_getLast',
   fun _ => rfl, fun _ => rfl, rfl⟩

/-- C7 (witness): the string rule at `"x \n\n"` (inner space kept, trailing
newlines dropped) and the unchanged-leaf rule at the int `3`. -/
theorem claim_C7_witness :
    transform_data (.scalar (.str "x \n\n")) = .scalar (.str (rstripNewlines "x \n\n")) ∧
    (∃ m : Nat, ("x \n\n" : String).data
      = (rstripNewlines "x \n\n").data ++ List.replicate m '\n') ∧
    (rstripNewlines "x \n\n").data.getLast? ≠ some '\n' ∧
    transform_data (.scalar (.int 3)) = .scalar (.int 3) :=
  ⟨claim_C7.1 "x \n\n", claim_C7.2.1 "x \n\n", claim_C7.2.2.1 "x \n\n",
   claim_C7.2.2.2.1 3⟩

/-- C8: for the spec's regression example `["a", {"b": [1]}, "c", {"d": [2]}]`,
`get_mixed_types_str_keys` returns the four labels `["a","b","c","d"]` while
`get_mixed_types_dict_values` returns the two groups `[[1],[2]]`; and in general,
whenever a plain-string element is present, the label list is strictly longer than
the group list, so the two results are not positionally aligned. -/
theorem claim_C8 :
    get_mixed_types_str_keys (.list [.scalar (.str "a"),
        .dict [(.str "b", .list [.scalar (.int 1)])], .scalar (.str "c"),
        .dict [(.str "d", .list [.scalar (.int 2)])]])
      = .ok (.list [.scalar (.str "a"), .scalar (.str "b"),
          .scalar (.str "c"), .scalar (.str "d")]) ∧
    get_mixed_types_dict_values (.list [.scalar (.str "a"),
        .dict [(.str "b", .list [.scalar (.int 1)])], .scalar (.str "c"),
        .dict [(.str "d", .list [.scalar (.int 2)])]])
      = .ok (some (.list [.list [.scalar (.int 1)], .list [.scalar (.int 2)]])) ∧
    (∀ (items : List Value) (ls : List Scalar) (gs : List (Option (List Value))),
      mapExcept strKeyLabel items = .ok ls →
      mapExcept groupOf items = .ok gs →
      (∃ s : String, Value.scalar (.str s) ∈ items) →
      (gs.filterMap id).length < ls.length) := by
  refine ⟨by decide, by decide, ?_⟩
  intro items ls gs hls hgs ⟨s, hs⟩
  have hlt := filterMap_length_lt (fun _ h => Value.noConfusion h) hgs hs
  have hlen := mapExcept_ok_length hls
  omega

/-- C8 (witness): the general misalignment inequality instantiated at the spec's
regression example. -/
theorem claim_C8_witness :
    (([some [.scalar (.int 1)], some [.scalar (.int 2)]]
        : List (Option (List Value))).filterMap id).length
      < ([.str "a", .str "b", .str "c", .str "d"] : List Scalar).length :=
  claim_C8.2.2 [.scalar (.str "a"), .dict [(.str "b", .list [.scalar (.int 1)])],
      .scalar (.str "c"), .dict [(.str "d", .list [.scalar (.int 2)])]]
    [.str "a", .str "b", .str "c", .str "d"]
    [Option.none, some [.scalar (.int 1)], Option.none, some [.scalar (.int 2)]]
    (by decide) (by decide) ⟨"a", by decide⟩

/-- C9: when the label scan yields exactly one label, the collapsed return value is
`str()`-coerced, hence always a string — even when the sole label is a mapping key
that is not a string; with two or more labels, non-string keys are returned
unconverted.  Concretely, the key `5` surfaces as the string `"5"` in the
singleton case but as the int `5` in the multi-label case. -/
theorem claim_C9 :
    (∀ (items : List Value) (l : Scalar),
      mapExcept strKeyLabel items = .ok [l] →
      get_mixed_types_str_keys (.list items) = .ok (.scalar (.str (pyStr l)))) ∧
    get_mixed_types_str_keys (.list [.dict [(.int 5, .scalar .none)]])
      = .ok (.scalar (.str "5")) ∧
    get_mixed_types_str_keys
        (.list [.scalar (.str "a"), .dict [(.int 5, .scalar .none)]])
      = .ok (.list [.scalar (.str "a"), .scalar (.int 5)]) := by
  refine ⟨?_, by decide, by decide⟩
  intro items l h
  rw [str_keys_ok h, strKeysResult_singleton]

/-- C9 (witness): the singleton `str()`-coercion applied at a concrete non-string
key. -/
theorem claim_C9_witness :
    get_mixed_types_str_keys (.list [.dict [(.int 7, .scalar .none)]])
      = .ok (.scalar (.str (pyStr (.int 7)))) :=
  claim_C9.1 [.dict [(.int 7, .scalar .none)]] (.int 7) (by decide)

/-- C10: a grouping element's group is built by iterating the value under its first
key and copying it element by element: a list value is copied as is, a string value
yields the list of its single-character substrings, a dict value yields its keys,
and a non-iterable value (e.g. an int) raises `TypeError`, so no group is produced. -/
theorem claim_C10 :
    (∀ (k : Scalar) (xs : List Value),
      get_mixed_types_dict_values (.list [.dict [(k, .list xs)]])
        = .ok (some (.list xs))) ∧
    (∀ (k : Scalar) (s : String),
      get_mixed_types_dict_values (.list [.dict [(k, .scalar (.str s))]])
        = .ok (some (.list (s.data.map (fun c => Value.scalar (.str (String.mk [c]))))))) ∧
    (∀ (k : Scalar) (kvs : List (Scalar × Value)),
      get_mixed_types_dict_values (.list [.dict [(k, .dict kvs)]])
        = .ok (some (.list (kvs.map (fun p => Value.scalar p.1))))) ∧
    (∀ (k : Scalar) (n : Int),
      get_mixed_types_dict_values (.list [.dict [(k, .scalar (.int n))]])
        = .error .typeError) ∧
    get_mixed_types_dict_values (.list [.dict [(.str "k", .scalar (.str "ab"))]])
      = .ok (some (.list [.scalar (.str "a"), .scalar (.str "b")])) :=
  ⟨fun _ _ => rfl, fun _ _ => rfl, fun _ _ => rfl, fun _ _ => rfl, by decide⟩
